import Mathlib

/-!
Shallow embedding of the related-list row/column pipeline of
`src/force-app/main/default/lwc/relatedList/relatedList.js`.

JavaScript values reached by the pipeline are modelled by `JVal`
(`undefined` is modelled as absence, i.e. `Option JVal := none`).
Property access on `null` throws a TypeError in JavaScript; throwing is
modelled with `Except Unit`.  The external navigation URL service
(`NavigationMixin.GenerateUrl`) and the external field readers
(`getFieldValue` / `getFieldDisplayValue` of `lightning/uiRecordApi`)
are collaborators outside the repository and are passed in as function
parameters.
-/

namespace RelatedList

/-- Model of a JavaScript value (as far as the pipeline can observe it):
`null`, booleans, numbers, strings and plain objects.  `undefined` is
modelled as the absence of a value (`Option JVal := none`). -/
inductive JVal where
  | null : JVal
  | bool (b : Bool) : JVal
  | num (n : Int) : JVal
  | str (s : String) : JVal
  | obj (props : List (String × JVal)) : JVal

/-- First-match association lookup, modelling reading a property of a plain
JavaScript object literal (the object models we build never repeat keys). -/
def jlookup : List (String × JVal) → String → Option JVal
  | [], _ => none
  | (k, v) :: rest, key => if k = key then some v else jlookup rest key

/-- JavaScript truthiness of a (defined) value. -/
def jsTruthy : JVal → Bool
  | .null => false
  | .bool b => b
  | .num n => n ≠ 0
  | .str s => s ≠ ""
  | .obj _ => true

/-- JavaScript truthiness where the value may be `undefined`. -/
def jsTruthyO : Option JVal → Bool
  | none => false
  | some v => jsTruthy v

/-- JavaScript truthiness of a string-or-absent property (absent, `null`
and the empty string are falsy). -/
def jsTruthyS : Option String → Bool
  | none => false
  | some s => s ≠ ""

/-- Property read `v[k]`: throws (`.error`) when `v` is `null` (in the
source, `undefined` bases never reach a plain property read except where
modelled explicitly), yields `undefined` on primitives, and looks the key
up on objects. -/
def getPropE : JVal → String → Except Unit (Option JVal)
  | .null, _ => .error ()
  | .obj props, k => .ok (jlookup props k)
  | _, _ => .ok none

/-- One step of the resolver loop: `currentVal[objKey]?.value`. -/
def jsStep (cur : JVal) (key : String) : Except Unit (Option JVal) :=
  match getPropE cur key with
  | .error e => .error e
  | .ok none => .ok none
  | .ok (some .null) => .ok none
  | .ok (some v) => getPropE v "value"

/-- The resolver loop of `generateRecordUrl`:
`for (const objKey of ...) { currentVal = currentVal[objKey]?.value;
if (currentVal === undefined) break; }`.  A `none` current value models
`undefined`, on which a property read throws. -/
def walkPath : Option JVal → List String → Except Unit (Option JVal)
  | cur, [] => .ok cur
  | none, _ :: _ => .error ()
  | some cur, key :: rest =>
    match jsStep cur key with
    | .error e => .error e
    | .ok none => .ok none
    | .ok (some v) => walkPath (some v) rest

/-- `suffix.isSuffixOf s`, modelling JavaScript `s.endsWith(suffix)`
at the character-sequence level. -/
def jsEndsWith (s suffix : String) : Bool :=
  suffix.data.isSuffixOf s.data

/-- `s.substring(0, n)` for `0 ≤ n` (JavaScript clamps `n` to the length,
as `List.take` does). -/
def jsSubstring0 (s : String) (n : Nat) : String :=
  String.mk (s.data.take n)

/-- Worker for `jsSplit`: scan the input character by character; when the
separator occurs at the current position, emit the accumulated chunk and
skip the rest of the separator (`skip` counts separator characters still
to be consumed). -/
def jsSplitGo (sep : List Char) : List Char → List Char → Nat → List (List Char)
  | [], cur, _ => [cur.reverse]
  | _ :: rest, cur, Nat.succ k => jsSplitGo sep rest cur k
  | c :: rest, cur, 0 =>
    if sep.isPrefixOf (c :: rest) then
      cur.reverse :: jsSplitGo sep rest [] (sep.length - 1)
    else
      jsSplitGo sep rest (c :: cur) 0

/-- JavaScript `s.split(sep)` for a non-empty literal (string, not regex)
separator: splits on every occurrence of `sep`; when `sep` does not occur
the result is the one-element list `[s]`. -/
def jsSplit (s sep : String) : List String :=
  (jsSplitGo sep.data s.data [] 0).map String.mk

/-- Reading `names[0]` inside a template literal: an out-of-range index
yields `undefined`, which the template literal renders as `"undefined"`. -/
def jsIndex0 : List String → String
  | [] => "undefined"
  | x :: _ => x

/-- A raw display column from the related-list metadata response
(the properties the pipeline reads). -/
structure RawColumn where
  fieldApiName : String
  dataType : String
  lookupId : Option String

/-- The `typeAttributes` object set on lookup columns:
`{ label: { fieldName }, tooltip: { fieldName } }`. -/
structure TypeAttrs where
  labelFieldName : String
  tooltipFieldName : String

/-- A prepared column descriptor as produced by `prepareColumns`
(the raw column's properties survive the `structuredClone`, then
`apiPath`, `fieldName`, `type` and possibly `typeAttributes` are set). -/
structure DisplayColumn where
  fieldApiName : String
  dataType : String
  lookupId : Option String
  apiPath : String
  fieldName : String
  type : String
  typeAttributes : Option TypeAttrs

/-- The related-list metadata response, as far as `prepareColumns` and
`handleGetRelatedListInfo` read it.  `none` models an absent or
non-array property (the source guards with `Array.isArray`). -/
structure RelatedListInfo where
  displayColumns : Option (List RawColumn)
  objectApiNames : Option (List String)

/-- `getColumnType`: lookup columns render as `url`; `datetime` maps to
`date-local`; `picklist` maps to `string`; anything else passes through. -/
def getColumnType (column : RawColumn) : String :=
  if jsTruthyS column.lookupId then "url"
  else if column.dataType = "datetime" then "date-local"
  else if column.dataType = "picklist" then "string"
  else column.dataType

/-- `prepareColumns`: guard both metadata arrays, then map each raw column
to a descriptor; `apiPath` is `` `${relatedListInfo.objectApiNames[0]}.${field.fieldApiName}` ``,
`fieldName` starts as the field API name and lookup columns get the
`-resourceUrl` suffix together with label/tooltip `typeAttributes`. -/
def prepareColumns (relatedListInfo : RelatedListInfo) : List DisplayColumn :=
  match relatedListInfo.displayColumns, relatedListInfo.objectApiNames with
  | some displayColumns, some objectApiNames =>
    displayColumns.map (fun col =>
      let apiPath := jsIndex0 objectApiNames ++ "." ++ col.fieldApiName
      let type0 := getColumnType col
      if jsTruthyS col.lookupId then
        { fieldApiName := col.fieldApiName
          dataType := col.dataType
          lookupId := col.lookupId
          apiPath := apiPath
          fieldName := col.fieldApiName ++ "-resourceUrl"
          type := type0
          typeAttributes := some { labelFieldName := col.fieldApiName
                                   tooltipFieldName := col.fieldApiName } }
      else
        { fieldApiName := col.fieldApiName
          dataType := col.dataType
          lookupId := col.lookupId
          apiPath := apiPath
          fieldName := col.fieldApiName
          type := type0
          typeAttributes := none })
  | _, _ => []

/-- The fixed page-intent descriptor passed to the navigation URL service:
`{ type: "standard__recordPage", attributes: { actionName: "view", recordId } }`. -/
structure NavRequest where
  pageType : String
  actionName : String
  recordId : JVal

/-- The navigation URL service (`NavigationMixin.GenerateUrl`), an external
collaborator: may return a URL string or throw. -/
abbrev NavService := NavRequest → Except Unit String

/-- The fixed request `generateRecordUrl` sends: view the record-detail
page of the given record id. -/
def navRequest (rid : JVal) : NavRequest :=
  { pageType := "standard__recordPage"
    actionName := "view"
    recordId := rid }

/-- The `recordId` computation of `generateRecordUrl`: the `"Id"` sentinel
uses the record's own `id`; otherwise a trailing `".Id"` is stripped, the
remaining path is split on the literal string `"\\."` and walked from
`recordData.fields`, and the final (truthy) node's `id` is read. -/
def resolveRecordId (recordData : JVal) (lookupId : String) : Except Unit (Option JVal) :=
  if lookupId = "Id" then
    getPropE recordData "id"
  else
    let lookupId1 :=
      if jsEndsWith lookupId ".Id" then jsSubstring0 lookupId (lookupId.length - 3)
      else lookupId
    match getPropE recordData "fields" with
    | .error e => .error e
    | .ok fieldsNode =>
      match walkPath fieldsNode (jsSplit lookupId1 "\\.") with
      | .error e => .error e
      | .ok none => .ok none
      | .ok (some v) =>
        if jsTruthy v then getPropE v "id"
        else .ok none

/-- The body of `generateRecordUrl`'s `try` block: non-lookup columns give
`undefined`; otherwise the record id is resolved, falsy ids give
`undefined`, and a truthy id is handed to the navigation service (whose
thrown error propagates to the surrounding `catch`). -/
def generateRecordUrlTry (svc : NavService) (recordData : JVal)
    (field : DisplayColumn) : Except Unit (Option String) :=
  match field.lookupId with
  | none => .ok none
  | some lookupId =>
    if lookupId = "" then .ok none
    else
      match resolveRecordId recordData lookupId with
      | .error e => .error e
      | .ok none => .ok none
      | .ok (some rid) =>
        if jsTruthy rid then
          match svc (navRequest rid) with
          | .error e => .error e
          | .ok url => .ok (some url)
        else .ok none

/-- `generateRecordUrl`: the whole body is wrapped in `try/catch`; any
thrown error is logged and converted to `undefined`. -/
def generateRecordUrl (svc : NavService) (recordData : JVal)
    (field : DisplayColumn) : Option String :=
  match generateRecordUrlTry svc recordData field with
  | .ok v => v
  | .error _ => none

/-- A display row: a JavaScript object literal built up by property
assignments, kept as an ordered association list.  A `none` value models
a key that was assigned `undefined`. -/
abbrev Row := List (String × Option JVal)

/-- Property assignment `record[k] = v` on an object: replaces the value
of an existing key in place, otherwise appends the key. -/
def objSet (record : Row) (k : String) (v : Option JVal) : Row :=
  if record.any (fun p => p.1 = k) then
    record.map (fun p => if p.1 = k then (k, v) else p)
  else
    record ++ [(k, v)]

/-- Reading a property of a row object; the outer `Option` distinguishes
an absent key from a key holding `undefined`. -/
def rowLookup : Row → String → Option (Option JVal)
  | [], _ => none
  | (k, v) :: rest, key => if k = key then some v else rowLookup rest key

/-- The external field readers `getFieldValue` / `getFieldDisplayValue`
(`lightning/uiRecordApi`): given a record and a qualified field path they
return a value or `undefined`. -/
abbrev FieldReader := JVal → String → Option JVal

/-- JavaScript `x || ''`: a falsy or absent `x` is replaced by the empty
string. -/
def jsOrEmpty (x : Option JVal) : JVal :=
  match x with
  | some v => if jsTruthy v then v else JVal.str ""
  | none => JVal.str ""

/-- The per-cell value of `prepareDisplayRecords`: `textarea` columns and
the default branch use `getFieldValue`, `string`-typed columns use
`getFieldDisplayValue`; all three apply `|| ''`. -/
def cellValue (gfv gfdv : FieldReader) (recordData : JVal)
    (field : DisplayColumn) : JVal :=
  if field.dataType = "textarea" then jsOrEmpty (gfv recordData field.apiPath)
  else if field.type = "string" then jsOrEmpty (gfdv recordData field.apiPath)
  else jsOrEmpty (gfv recordData field.apiPath)

/-- The inner column loop of `prepareDisplayRecords`: assign the cell
value under `fieldApiName` and, for lookup columns, the awaited
`generateRecordUrl` result under the `-resourceUrl`-suffixed key. -/
def projectFields (gfv gfdv : FieldReader) (svc : NavService)
    (recordData : JVal) : List DisplayColumn → Row → Row
  | [], record => record
  | field :: rest, record =>
    let record1 := objSet record field.fieldApiName
      (some (cellValue gfv gfdv recordData field))
    let record2 :=
      if jsTruthyS field.lookupId then
        objSet record1 (field.fieldApiName ++ "-resourceUrl")
          ((generateRecordUrl svc recordData field).map JVal.str)
      else record1
    projectFields gfv gfdv svc recordData rest record2

/-- One iteration of the record loop: seed the row with `recordData.id`
(a property read that throws on a `null` element) and run the column
loop. -/
def projectRecordE (gfv gfdv : FieldReader) (svc : NavService)
    (displayColumns : List DisplayColumn) (recordData : JVal) :
    Except Unit Row :=
  match getPropE recordData "id" with
  | .error e => .error e
  | .ok idv =>
    .ok (projectFields gfv gfdv svc recordData displayColumns [("id", idv)])

/-- The record loop of `prepareDisplayRecords`, pushing one row per
record in order. -/
def projectRecords (gfv gfdv : FieldReader) (svc : NavService)
    (displayColumns : List DisplayColumn) :
    List JVal → Except Unit (List Row)
  | [] => .ok []
  | recordData :: rest =>
    match projectRecordE gfv gfdv svc displayColumns recordData with
    | .error e => .error e
    | .ok row =>
      match projectRecords gfv gfdv svc displayColumns rest with
      | .error e => .error e
      | .ok rows => .ok (row :: rows)

/-- `prepareDisplayRecords`: when either the raw record list or the
component's `displayColumns` is absent or not an array (`none`), the
empty list is returned; otherwise every record is projected in order. -/
def prepareDisplayRecords (gfv gfdv : FieldReader) (svc : NavService)
    (relatedListRecords : Option (List JVal))
    (displayColumns : Option (List DisplayColumn)) :
    Except Unit (List Row) :=
  match relatedListRecords, displayColumns with
  | some records, some columns => projectRecords gfv gfdv svc columns records
  | _, _ => .ok []

/-- `filterRecords`: the filter hook is a deliberate no-op (`//TODO`),
returning its input unchanged. -/
def filterRecords (displayRecords : List Row) : List Row :=
  displayRecords

/-- The hard-coded `EXTRA_FIELDS` constant at the top of the module. -/
def EXTRA_FIELDS : List String :=
  ["ExtraField__c"]

/-- The `relatedListFieldNames` computation of `handleGetRelatedListInfo`:
`prepareColumns` always returns an array (truthy even when empty), so the
guard is always taken; the descriptors' `apiPath`s are collected and one
entry `` `${data.objectApiNames[0]}.${field}` `` per `EXTRA_FIELDS` element
is pushed (reading `[0]` of an absent `objectApiNames` throws).  The
final bare `push()` in the source is a no-op. -/
def relatedListFieldNamesOf (data : RelatedListInfo) :
    Except Unit (List String) :=
  let displayColumns := prepareColumns data
  match data.objectApiNames with
  | none => .error ()
  | some names =>
    .ok (displayColumns.map (fun col => col.apiPath)
      ++ EXTRA_FIELDS.map (fun field => jsIndex0 names ++ "." ++ field))

/-- The keys a single column contributes to a row: the plain field name,
plus the `-resourceUrl`-suffixed key for lookup columns. -/
def colKeys (f : DisplayColumn) : List String :=
  f.fieldApiName ::
    (if jsTruthyS f.lookupId then [f.fieldApiName ++ "-resourceUrl"] else [])

/-- The keys (beyond `id`) the current column set defines for every row. -/
def rowKeySpec : List DisplayColumn → List String
  | [] => []
  | f :: rest => colKeys f ++ rowKeySpec rest

/-- The keys of a row, in insertion order. -/
def rowKeys (r : Row) : List String := r.map Prod.fst

/-! ### Sample data used to evaluate the pipeline on concrete inputs -/

/-- A navigation service that renders a record-page URL for string ids. -/
def svcView : NavService := fun req =>
  match req.recordId with
  | .str s => .ok ("/lightning/r/" ++ s ++ "/view")
  | _ => .ok "/lightning/r/unknown/view"

/-- A lookup column descriptor with the given `lookupId`. -/
def lookupColumn (p : Option String) : DisplayColumn :=
  { fieldApiName := "ContactId"
    dataType := "reference"
    lookupId := p
    apiPath := "Case.ContactId"
    fieldName := "ContactId-resourceUrl"
    type := "url"
    typeAttributes := none }

/-- The nested `fields` container of a record whose `Contact` field holds a
related record whose `Account` field in turn holds a record id, the shape a
multi-segment path `Contact.Account.Id` is meant to traverse. -/
def sampleNestedFields : JVal :=
  .obj [("Contact",
    .obj [("value",
      .obj [("Account",
        .obj [("value",
          .obj [("id", .str "001AccountId")])])])])]

/-- A raw record carrying `sampleNestedFields`. -/
def sampleNestedRecord : JVal :=
  .obj [("id", .str "rec1"), ("fields", sampleNestedFields)]

/-- A raw record with a single one-segment lookup field `A` holding a
record id. -/
def sampleFlatRecord : JVal :=
  .obj [("id", .str "rec1"),
        ("fields", .obj [("A", .obj [("value", .obj [("id", .str "005x")])])])]

/-- A plain text column descriptor. -/
def textColumn : DisplayColumn :=
  { fieldApiName := "Name"
    dataType := "text"
    lookupId := none
    apiPath := "Case.Name"
    fieldName := "Name"
    type := "text"
    typeAttributes := none }

/-- A field reader that never finds a value. -/
def readerNone : FieldReader := fun _ _ => none

/-! ### Helper lemmas -/

/-- `prepareColumns` on well-formed metadata is a plain `List.map`. -/
theorem prepareColumns_some (cols : List RawColumn) (names : List String) :
    prepareColumns ⟨some cols, some names⟩
      = cols.map (fun col =>
          let apiPath := jsIndex0 names ++ "." ++ col.fieldApiName
          let type0 := getColumnType col
          if jsTruthyS col.lookupId then
            { fieldApiName := col.fieldApiName
              dataType := col.dataType
              lookupId := col.lookupId
              apiPath := apiPath
              fieldName := col.fieldApiName ++ "-resourceUrl"
              type := type0
              typeAttributes := some { labelFieldName := col.fieldApiName
                                       tooltipFieldName := col.fieldApiName } }
          else
            { fieldApiName := col.fieldApiName
              dataType := col.dataType
              lookupId := col.lookupId
              apiPath := apiPath
              fieldName := col.fieldApiName
              type := type0
              typeAttributes := none }) := rfl

theorem string_eq_of_data_eq {s t : String} (h : s.data = t.data) : s = t := by
  cases s; cases t; exact congrArg String.mk h

theorem jsEndsWith_append_Id (p : String) : jsEndsWith (p ++ ".Id") ".Id" = true := by
  simp only [jsEndsWith, String.data_append, List.isSuffixOf_iff_suffix]
  exact List.suffix_append _ _

theorem jsSubstring0_append_Id (p : String) :
    jsSubstring0 (p ++ ".Id") ((p ++ ".Id").length - 3) = p := by
  have hlen : (p ++ ".Id").length = p.length + 3 := by
    rw [String.length_append]; rfl
  have hl : p.length + 3 - 3 = p.data.length := by
    show p.length + 3 - 3 = p.length
    omega
  rw [jsSubstring0, hlen, hl, String.data_append]
  rw [List.take_left]

theorem append_Id_ne_empty (p : String) : p ++ ".Id" ≠ "" := by
  intro h
  have h0 := congrArg String.length h
  rw [String.length_append] at h0
  have h1 : (".Id" : String).length = 3 := rfl
  have h2 : ("" : String).length = 0 := rfl
  omega

theorem append_Id_ne_Id (p : String) : p ++ ".Id" ≠ "Id" := by
  intro h
  have := congrArg String.length h
  rw [String.length_append] at this
  have h1 : (".Id" : String).length = 3 := rfl
  have h2 : ("Id" : String).length = 2 := rfl
  omega

/-! ### Claim theorems -/

/-- C6: `getColumnType` resolves deterministically with precedence: a
truthy `lookupId` forces `url` regardless of the raw `dataType`;
otherwise `datetime` maps to `date-local`, `picklist` maps to `string`,
and every other raw type passes through unchanged. -/
theorem getColumnType_precedence (c : RawColumn) :
    (jsTruthyS c.lookupId = true → getColumnType c = "url")
  ∧ (jsTruthyS c.lookupId = false → c.dataType = "datetime" →
      getColumnType c = "date-local")
  ∧ (jsTruthyS c.lookupId = false → c.dataType = "picklist" →
      getColumnType c = "string")
  ∧ (jsTruthyS c.lookupId = false → c.dataType ≠ "datetime" →
      c.dataType ≠ "picklist" → getColumnType c = c.dataType) := by
  refine ⟨fun h => ?_, fun h hd => ?_, fun h hd => ?_, fun h h1 h2 => ?_⟩ <;>
    simp [getColumnType, h, *]

/-- C6 witness: the four precedence branches, each at a concrete column. -/
theorem getColumnType_precedence_witness :
    getColumnType ⟨"AccountId", "datetime", some "Account.Id"⟩ = "url"
  ∧ getColumnType ⟨"CreatedDate", "datetime", none⟩ = "date-local"
  ∧ getColumnType ⟨"Status", "picklist", none⟩ = "string"
  ∧ getColumnType ⟨"Subject", "text", none⟩ = "text" :=
  ⟨(getColumnType_precedence _).1 (by decide),
   (getColumnType_precedence _).2.1 (by decide) rfl,
   (getColumnType_precedence _).2.2.1 (by decide) rfl,
   (getColumnType_precedence _).2.2.2 (by decide) (by decide) (by decide)⟩

/-- C2: on metadata whose `displayColumns` and `objectApiNames` are both
arrays (the latter non-empty, so that `objectApiNames[0]` exists),
`prepareColumns` yields exactly one descriptor per display column, in
input order, whose `apiPath` is `objectApiNames[0] ++ "." ++ fieldApiName`
of that column. -/
theorem prepareColumns_count_order_apiPath (cols : List RawColumn)
    (o : String) (rest : List String) :
    (prepareColumns ⟨some cols, some (o :: rest)⟩).length = cols.length
  ∧ (prepareColumns ⟨some cols, some (o :: rest)⟩).map DisplayColumn.apiPath
      = cols.map (fun col => o ++ "." ++ col.fieldApiName)
  ∧ (prepareColumns ⟨some cols, some (o :: rest)⟩).map DisplayColumn.fieldApiName
      = cols.map RawColumn.fieldApiName := by
  rw [prepareColumns_some, List.map_map, List.map_map]
  refine ⟨by simp, ?_, ?_⟩ <;>
    exact List.map_congr_left (fun col _ => by
      by_cases h : jsTruthyS col.lookupId <;> simp [h, jsIndex0])

/-- C5: a missing or non-array input sequence (modelled as `none`) makes
`prepareColumns` and `prepareDisplayRecords` return an empty sequence
without raising an error. -/
theorem malformed_inputs_fail_soft :
    (∀ oan, prepareColumns ⟨none, oan⟩ = [])
  ∧ (∀ dc, prepareColumns ⟨dc, none⟩ = [])
  ∧ (∀ gfv gfdv svc cols, prepareDisplayRecords gfv gfdv svc none cols = .ok [])
  ∧ (∀ gfv gfdv svc rs, prepareDisplayRecords gfv gfdv svc rs none = .ok []) := by
  refine ⟨fun oan => ?_, fun dc => ?_, fun _ _ _ cols => ?_, fun _ _ _ rs => ?_⟩
  · cases oan <;> rfl
  · cases dc <;> rfl
  · cases cols <;> rfl
  · cases rs <;> rfl

/-- C1: the claim describes splitting on the literal dot, but the source
splits on the literal two-character string `"\\."`, so the multi-segment
path `Contact.Account.Id` is looked up as the single key
`"Contact.Account"` and resolution returns `undefined` even though a
segment-by-segment walk of the same record would reach the nested id. -/
theorem generateRecordUrl_backslash_dot_split :
    jsSplit "Contact.Account" "\\." = ["Contact.Account"]
  ∧ generateRecordUrl svcView sampleNestedRecord
      (lookupColumn (some "Contact.Account.Id")) = none
  ∧ walkPath (some sampleNestedFields) ["Contact", "Account"]
      = .ok (some (JVal.obj [("id", JVal.str "001AccountId")])) :=
  ⟨by decide, rfl, rfl⟩

/-- Stripping a freshly appended `".Id"` suffix undoes the append, so the
resolver treats `p ++ ".Id"` and `p` alike (for `p` not itself subject to
the sentinel or a second strip). -/
theorem resolveRecordId_append_Id (recordData : JVal) (p : String)
    (hId : p ≠ "Id") (hsuf : jsEndsWith p ".Id" = false) :
    resolveRecordId recordData (p ++ ".Id") = resolveRecordId recordData p := by
  unfold resolveRecordId
  rw [if_neg (append_Id_ne_Id p), if_neg hId, jsEndsWith_append_Id,
    jsSubstring0_append_Id, hsuf]
  simp

/-- The record loop never fails on a list of non-`null` records, and
produces one row per record, for every navigation service (including one
that always throws). -/
theorem projectRecords_total (gfv gfdv : FieldReader) (svc : NavService)
    (cols : List DisplayColumn) :
    ∀ rs : List JVal, (∀ r ∈ rs, r ≠ JVal.null) →
      ∃ rows, projectRecords gfv gfdv svc cols rs = .ok rows ∧
        rows.length = rs.length := by
  intro rs
  induction rs with
  | nil => exact fun _ => ⟨[], rfl, rfl⟩
  | cons r rest ih =>
    intro h
    obtain ⟨rows, hrows, hlen⟩ := ih fun x hx => h x (List.mem_cons_of_mem _ hx)
    have hr : r ≠ JVal.null := h r (List.mem_cons_self r rest)
    have hid : ∃ idv, getPropE r "id" = .ok idv := by
      cases r with
      | null => exact absurd rfl hr
      | bool b => exact ⟨none, rfl⟩
      | num n => exact ⟨none, rfl⟩
      | str s => exact ⟨none, rfl⟩
      | obj props => exact ⟨_, rfl⟩
    obtain ⟨idv, hidv⟩ := hid
    refine ⟨projectFields gfv gfdv svc r cols [("id", idv)] :: rows, ?_, by simp [hlen]⟩
    unfold projectRecords projectRecordE
    rw [hidv, hrows]

/-- A successful record loop pairs each input record, in order, with the
row projected from it. -/
theorem projectRecords_ok_forall₂ (gfv gfdv : FieldReader) (svc : NavService)
    (cols : List DisplayColumn) :
    ∀ rs rows, projectRecords gfv gfdv svc cols rs = .ok rows →
      List.Forall₂ (fun recordData row =>
        projectRecordE gfv gfdv svc cols recordData = .ok row) rs rows := by
  intro rs
  induction rs with
  | nil =>
    intro rows h
    unfold projectRecords at h
    obtain rfl : ([] : List Row) = rows := by injection h
    exact List.Forall₂.nil
  | cons r rest ih =>
    intro rows h
    unfold projectRecords at h
    cases hr : projectRecordE gfv gfdv svc cols r with
    | error e => rw [hr] at h; simp at h
    | ok row =>
      rw [hr] at h
      cases hrest : projectRecords gfv gfdv svc cols rest with
      | error e => rw [hrest] at h; simp at h
      | ok rows' =>
        rw [hrest] at h
        obtain rfl : row :: rows' = rows := by injection h
        exact List.Forall₂.cons hr (ih rows' hrest)

/-- C3: `generateRecordUrl` never propagates an exception: it yields
`undefined` for non-lookup columns, when resolution throws internally,
when resolution yields no identifier or a falsy one, and when the
navigation service throws (the `catch` converts the error); when
resolution yields a truthy identifier its result is exactly the service's
answer (`toOption` maps a thrown error to `undefined`); and row
projection completes with one row per record for every service, so a
failing cell never aborts the projection or later rows. -/
theorem generateRecordUrl_error_handling (svc : NavService)
    (recordData : JVal) (f : DisplayColumn) :
    (jsTruthyS f.lookupId = false → generateRecordUrl svc recordData f = none)
  ∧ (∀ lid, f.lookupId = some lid → lid ≠ "" →
      (resolveRecordId recordData lid = .error () →
        generateRecordUrl svc recordData f = none)
    ∧ (resolveRecordId recordData lid = .ok none →
        generateRecordUrl svc recordData f = none)
    ∧ (∀ rid, resolveRecordId recordData lid = .ok (some rid) →
        jsTruthy rid = false → generateRecordUrl svc recordData f = none)
    ∧ (∀ rid, resolveRecordId recordData lid = .ok (some rid) →
        jsTruthy rid = true →
        generateRecordUrl svc recordData f = (svc (navRequest rid)).toOption))
  ∧ (∀ gfv gfdv rs cols, (∀ r ∈ rs, r ≠ JVal.null) →
      ∃ rows, prepareDisplayRecords gfv gfdv svc (some rs) (some cols) = .ok rows
        ∧ rows.length = rs.length) := by
  refine ⟨?_, ?_, ?_⟩
  · intro h
    cases hf : f.lookupId with
    | none => simp only [generateRecordUrl, generateRecordUrlTry, hf]
    | some s =>
      rw [hf] at h
      have hs : s = "" := by simpa [jsTruthyS] using h
      subst hs
      simp only [generateRecordUrl, generateRecordUrlTry, hf]
      rfl
  · intro lid hlid hne
    refine ⟨fun hres => ?_, fun hres => ?_, fun rid hres hfalse => ?_,
      fun rid hres htrue => ?_⟩
    · simp only [generateRecordUrl, generateRecordUrlTry, hlid, if_neg hne, hres]
    · simp only [generateRecordUrl, generateRecordUrlTry, hlid, if_neg hne, hres]
    · simp only [generateRecordUrl, generateRecordUrlTry, hlid, if_neg hne, hres,
        hfalse, Bool.false_eq_true, if_false]
    · simp only [generateRecordUrl, generateRecordUrlTry, hlid, if_neg hne, hres,
        htrue, if_true]
      cases hsvc : svc (navRequest rid) <;> simp [hsvc, Except.toOption]
  · intro gfv gfdv rs cols h
    exact projectRecords_total gfv gfdv svc cols rs h

/-- C3 witness: at concrete inputs, a non-lookup column and a resolvable
lookup exercise the theorem's branches. -/
theorem generateRecordUrl_error_handling_witness :
    generateRecordUrl svcView sampleFlatRecord (lookupColumn none) = none
  ∧ generateRecordUrl svcView sampleFlatRecord (lookupColumn (some "A"))
      = (svcView (navRequest (JVal.str "005x"))).toOption :=
  ⟨(generateRecordUrl_error_handling svcView sampleFlatRecord
      (lookupColumn none)).1 (by decide),
   (((generateRecordUrl_error_handling svcView sampleFlatRecord
      (lookupColumn (some "A"))).2.1 "A" rfl (by decide)).2.2.2
      (JVal.str "005x") rfl (by decide))⟩

/-- C4: a successful row projection yields exactly one display row per
input record, in input order (each row is the projection of the record at
the same position); projecting zero records yields the empty row list;
and the `filterRecords` hook returns its input unchanged. -/
theorem prepareDisplayRecords_row_per_record (gfv gfdv : FieldReader)
    (svc : NavService) (rs : List JVal) (cols : List DisplayColumn)
    (rows : List Row)
    (h : prepareDisplayRecords gfv gfdv svc (some rs) (some cols) = .ok rows) :
    rows.length = rs.length
  ∧ List.Forall₂ (fun recordData row =>
      projectRecordE gfv gfdv svc cols recordData = .ok row) rs rows
  ∧ prepareDisplayRecords gfv gfdv svc (some []) (some cols) = .ok []
  ∧ (∀ l, filterRecords l = l) := by
  have hf := projectRecords_ok_forall₂ gfv gfdv svc cols rs rows h
  exact ⟨hf.length_eq.symm, hf, rfl, fun l => rfl⟩

/-- C4 witness: projecting one concrete record with no columns yields the
one-row list seeded with the record id. -/
theorem prepareDisplayRecords_row_per_record_witness :
    ([[("id", some (JVal.str "rec1"))]] : List Row).length
      = [sampleFlatRecord].length :=
  (prepareDisplayRecords_row_per_record (fun _ _ => none) (fun _ _ => none)
    svcView [sampleFlatRecord] [] [[("id", some (JVal.str "rec1"))]] rfl).1

/-- C7 counterexample: the claim's suffix equivalence fails when the base
path itself ends in `".Id"`: only one strip is performed, so
`"A.Id" ++ ".Id"` is looked up under the single key `"A.Id"` (absent)
while `"A.Id"` strips to `"A"` and resolves. -/
theorem trailing_id_double_suffix_counterexample :
    ("A.Id" : String) ≠ "Id"
  ∧ ("A.Id.Id" : String) = "A.Id" ++ ".Id"
  ∧ generateRecordUrl svcView sampleFlatRecord
      (lookupColumn (some "A.Id.Id")) = none
  ∧ generateRecordUrl svcView sampleFlatRecord
      (lookupColumn (some "A.Id")) = some "/lightning/r/005x/view" :=
  ⟨by decide, rfl, rfl, rfl⟩

/-- C7 (amended): the sentinel path `"Id"` resolves to the owning
record's own identifier, and for every non-empty lookup path `p` other
than `"Id"` that does not itself end in `".Id"`, the suffixed form
`p ++ ".Id"` and the plain form `p` produce the same resolution result. -/
theorem trailing_id_equivalence (svc : NavService) (recordData : JVal) :
    (∀ (f : DisplayColumn), f.lookupId = some "Id" →
      ∀ i, getPropE recordData "id" = .ok (some i) → jsTruthy i = true →
        generateRecordUrl svc recordData f = (svc (navRequest i)).toOption)
  ∧ (∀ (p : String) (f g : DisplayColumn),
      p ≠ "" → p ≠ "Id" → jsEndsWith p ".Id" = false →
      f.lookupId = some (p ++ ".Id") → g.lookupId = some p →
      generateRecordUrl svc recordData f = generateRecordUrl svc recordData g) := by
  constructor
  · intro f hf i hi htruthy
    have hres : resolveRecordId recordData "Id" = .ok (some i) := by
      unfold resolveRecordId
      rw [if_pos rfl]
      exact hi
    simp only [generateRecordUrl, generateRecordUrlTry, hf,
      if_neg (by decide : ¬ ("Id" : String) = ""), hres, htruthy, if_true]
    cases hsvc : svc (navRequest i) <;> simp [hsvc, Except.toOption]
  · intro p f g hne hId hsuf hf hg
    simp only [generateRecordUrl, generateRecordUrlTry, hf, hg,
      if_neg (append_Id_ne_empty p), if_neg (show ¬ p = "" from hne),
      resolveRecordId_append_Id recordData p hId hsuf]

/-- C7 witness: the sentinel and the suffix equivalence at concrete
inputs. -/
theorem trailing_id_equivalence_witness :
    generateRecordUrl svcView sampleFlatRecord (lookupColumn (some "Id"))
      = (svcView (navRequest (JVal.str "rec1"))).toOption
  ∧ generateRecordUrl svcView sampleFlatRecord
        (lookupColumn (some ("A" ++ ".Id")))
      = generateRecordUrl svcView sampleFlatRecord (lookupColumn (some "A")) :=
  ⟨(trailing_id_equivalence svcView sampleFlatRecord).1 _ rfl
      (JVal.str "rec1") rfl (by decide),
   (trailing_id_equivalence svcView sampleFlatRecord).2 "A" _ _
      (by decide) (by decide) (by decide) rfl rfl⟩

theorem rowKeys_append (r s : Row) : rowKeys (r ++ s) = rowKeys r ++ rowKeys s :=
  List.map_append _ _ _

/-- Assigning a fresh key appends it. -/
theorem objSet_fresh (r : Row) (k : String) (v : Option JVal)
    (h : k ∉ rowKeys r) : objSet r k v = r ++ [(k, v)] := by
  have hc : r.any (fun p => p.1 = k) = false := by
    rw [List.any_eq_false]
    intro p hp
    simp only [decide_eq_true_eq]
    intro hpk
    exact h (List.mem_map.mpr ⟨p, hp, hpk⟩)
  simp [objSet, hc]

theorem rowLookup_append (r s : Row) (k : String) :
    rowLookup (r ++ s) k = (rowLookup r k).or (rowLookup s k) := by
  induction r with
  | nil => rfl
  | cons p rest ih =>
    obtain ⟨k', v⟩ := p
    by_cases hk : k' = k <;> simp [rowLookup, hk, ih]

/-- A key is present in a row exactly when its lookup succeeds. -/
theorem mem_rowKeys_iff (r : Row) (k : String) :
    k ∈ rowKeys r ↔ (rowLookup r k).isSome := by
  induction r with
  | nil => simp [rowKeys, rowLookup]
  | cons p rest ih =>
    obtain ⟨k', v⟩ := p
    simp only [rowKeys, List.map_cons, List.mem_cons, rowLookup]
    by_cases hk : k' = k
    · subst hk; simp
    · rw [if_neg hk, ← ih]
      constructor
      · rintro (h | h)
        · exact absurd h.symm hk
        · exact h
      · exact Or.inr

theorem rowLookup_not_mem (r : Row) (k : String) (h : k ∉ rowKeys r) :
    rowLookup r k = none := by
  rcases hl : rowLookup r k with _ | v
  · rfl
  · exact absurd ((mem_rowKeys_iff r k).mpr (by simp [hl])) h

/-- Every key of `objSet r k v` is a key of `r` or is `k`. -/
theorem objSet_keys_subset (r : Row) (k : String) (v : Option JVal) :
    ∀ k', k' ∈ rowKeys (objSet r k v) → k' ∈ rowKeys r ∨ k' = k := by
  intro k' hk'
  unfold objSet at hk'
  split at hk'
  · unfold rowKeys at hk'
    rw [List.map_map] at hk'
    obtain ⟨p, hp, hpk⟩ := List.mem_map.mp hk'
    subst hpk
    by_cases hpk1 : p.1 = k
    · right; simp [Function.comp, hpk1]
    · left
      have hfst : (Prod.fst ∘ fun p : String × Option JVal =>
          if p.1 = k then (k, v) else p) p = p.1 := by
        simp [Function.comp, hpk1]
      rw [hfst]
      exact List.mem_map_of_mem _ hp
  · rw [rowKeys_append] at hk'
    rcases List.mem_append.mp hk' with h | h
    · exact Or.inl h
    · right; simpa [rowKeys] using h

/-- The central invariant of the column loop: with no key collisions, the
loop appends exactly the specified keys, preserves existing bindings, and
binds each column's plain key to its cell value and each lookup column's
suffixed key to the generated URL (or `undefined`). -/
theorem projectFields_spec (gfv gfdv : FieldReader) (svc : NavService)
    (recordData : JVal) :
    ∀ (cols : List DisplayColumn) (r : Row),
      (rowKeys r ++ rowKeySpec cols).Nodup →
      rowKeys (projectFields gfv gfdv svc recordData cols r)
          = rowKeys r ++ rowKeySpec cols
      ∧ (∀ k, k ∈ rowKeys r →
          rowLookup (projectFields gfv gfdv svc recordData cols r) k
            = rowLookup r k)
      ∧ (∀ c ∈ cols,
          rowLookup (projectFields gfv gfdv svc recordData cols r)
              c.fieldApiName
            = some (some (cellValue gfv gfdv recordData c)))
      ∧ (∀ c ∈ cols, jsTruthyS c.lookupId = true →
          rowLookup (projectFields gfv gfdv svc recordData cols r)
              (c.fieldApiName ++ "-resourceUrl")
            = some ((generateRecordUrl svc recordData c).map JVal.str)) := by
  intro cols
  induction cols with
  | nil =>
    intro r _
    refine ⟨by simp [projectFields, rowKeySpec], fun k _ => rfl, by simp, by simp⟩
  | cons f rest ih =>
    intro r h
    rw [rowKeySpec] at h ⊢
    by_cases htruthy : jsTruthyS f.lookupId = true
    · -- lookup column: the plain key and the suffixed key are appended
      rw [colKeys, if_pos htruthy] at h ⊢
      simp only [List.cons_append, List.nil_append] at h ⊢
      obtain ⟨h1, h2, hdisj⟩ := List.nodup_append.mp h
      have hcons1 := List.nodup_cons.mp h2
      have hk1k2 : f.fieldApiName ≠ f.fieldApiName ++ "-resourceUrl" := by
        intro hx
        exact hcons1.1 (hx ▸ List.mem_cons_self _ _)
      have hk1r : f.fieldApiName ∉ rowKeys r := fun hx =>
        hdisj hx (List.mem_cons_self _ _)
      have hk2r : f.fieldApiName ++ "-resourceUrl" ∉ rowKeys r := fun hx =>
        hdisj hx (List.mem_cons_of_mem _ (List.mem_cons_self _ _))
      have hr2keys : f.fieldApiName ++ "-resourceUrl" ∉
          rowKeys (r ++ [(f.fieldApiName,
            some (cellValue gfv gfdv recordData f))]) := by
        rw [rowKeys_append]
        intro hx
        rcases List.mem_append.mp hx with hx | hx
        · exact hk2r hx
        · simp only [rowKeys, List.map_cons, List.map_nil,
            List.mem_singleton] at hx
          exact hk1k2 hx.symm
      have hstep : projectFields gfv gfdv svc recordData (f :: rest) r
          = projectFields gfv gfdv svc recordData rest
              (r ++ [(f.fieldApiName, some (cellValue gfv gfdv recordData f)),
                     (f.fieldApiName ++ "-resourceUrl",
                      (generateRecordUrl svc recordData f).map JVal.str)]) := by
        simp only [projectFields, htruthy, if_true]
        rw [objSet_fresh _ _ _ hk1r, objSet_fresh _ _ _ hr2keys,
          List.append_assoc]
        rfl
      set r2 : Row :=
        r ++ [(f.fieldApiName, some (cellValue gfv gfdv recordData f)),
              (f.fieldApiName ++ "-resourceUrl",
               (generateRecordUrl svc recordData f).map JVal.str)] with hr2
      have hr2k : rowKeys r2 = rowKeys r ++
          [f.fieldApiName, f.fieldApiName ++ "-resourceUrl"] := by
        rw [hr2, rowKeys_append]; rfl
      have hnd2 : (rowKeys r2 ++ rowKeySpec rest).Nodup := by
        rw [hr2k, List.append_assoc]
        exact h
      obtain ⟨ihkeys, ihpres, ihcell, ihurl⟩ := ih r2 hnd2
      have hpres2 : ∀ k, k ∈ rowKeys r →
          rowLookup (projectFields gfv gfdv svc recordData rest r2) k
            = rowLookup r k := by
        intro k hk
        have hk2 : k ∈ rowKeys r2 := by
          rw [hr2k]; exact List.mem_append.mpr (Or.inl hk)
        rw [ihpres k hk2, hr2, rowLookup_append]
        rcases hl : rowLookup r k with _ | v
        · exact absurd ((mem_rowKeys_iff r k).mp hk) (by simp [hl])
        · rfl
      refine ⟨?_, ?_, ?_, ?_⟩
      · rw [hstep, ihkeys, hr2k, List.append_assoc]; rfl
      · intro k hk; rw [hstep]; exact hpres2 k hk
      · intro c hc
        rcases List.mem_cons.mp hc with rfl | hc
        · rw [hstep]
          have hmem : c.fieldApiName ∈ rowKeys r2 := by
            rw [hr2k]
            exact List.mem_append.mpr (Or.inr (List.mem_cons_self _ _))
          rw [ihpres _ hmem, hr2, rowLookup_append,
            rowLookup_not_mem r _ hk1r]
          simp [rowLookup]
        · rw [hstep]; exact ihcell c hc
      · intro c hc hct
        rcases List.mem_cons.mp hc with rfl | hc
        · rw [hstep]
          have hmem : c.fieldApiName ++ "-resourceUrl" ∈ rowKeys r2 := by
            rw [hr2k]
            exact List.mem_append.mpr
              (Or.inr (List.mem_cons_of_mem _ (List.mem_cons_self _ _)))
          rw [ihpres _ hmem, hr2, rowLookup_append,
            rowLookup_not_mem r _ hk2r]
          simp [rowLookup, hk1k2]
        · rw [hstep]; exact ihurl c hc hct
    · -- non-lookup column: a single key is appended
      rw [colKeys, if_neg htruthy] at h ⊢
      simp only [List.cons_append, List.nil_append] at h ⊢
      obtain ⟨h1, h2, hdisj⟩ := List.nodup_append.mp h
      have hk1r : f.fieldApiName ∉ rowKeys r := fun hx =>
        hdisj hx (List.mem_cons_self _ _)
      have hstep : projectFields gfv gfdv svc recordData (f :: rest) r
          = projectFields gfv gfdv svc recordData rest
              (r ++ [(f.fieldApiName,
                some (cellValue gfv gfdv recordData f))]) := by
        simp only [projectFields, htruthy, Bool.false_eq_true, if_false]
        rw [objSet_fresh _ _ _ hk1r]
      set r2 : Row :=
        r ++ [(f.fieldApiName, some (cellValue gfv gfdv recordData f))] with hr2
      have hr2k : rowKeys r2 = rowKeys r ++ [f.fieldApiName] := by
        rw [hr2, rowKeys_append]; rfl
      have hnd2 : (rowKeys r2 ++ rowKeySpec rest).Nodup := by
        rw [hr2k, List.append_assoc]
        exact h
      obtain ⟨ihkeys, ihpres, ihcell, ihurl⟩ := ih r2 hnd2
      have hpres2 : ∀ k, k ∈ rowKeys r →
          rowLookup (projectFields gfv gfdv svc recordData rest r2) k
            = rowLookup r k := by
        intro k hk
        have hk2 : k ∈ rowKeys r2 := by
          rw [hr2k]; exact List.mem_append.mpr (Or.inl hk)
        rw [ihpres k hk2, hr2, rowLookup_append]
        rcases hl : rowLookup r k with _ | v
        · exact absurd ((mem_rowKeys_iff r k).mp hk) (by simp [hl])
        · rfl
      refine ⟨?_, ?_, ?_, ?_⟩
      · rw [hstep, ihkeys, hr2k, List.append_assoc]; rfl
      · intro k hk; rw [hstep]; exact hpres2 k hk
      · intro c hc
        rcases List.mem_cons.mp hc with rfl | hc
        · rw [hstep]
          have hmem : c.fieldApiName ∈ rowKeys r2 := by
            rw [hr2k]
            exact List.mem_append.mpr (Or.inr (List.mem_cons_self _ _))
          rw [ihpres _ hmem, hr2, rowLookup_append,
            rowLookup_not_mem r _ hk1r]
          simp [rowLookup]
        · rw [hstep]; exact ihcell c hc
      · intro c hc hct
        rcases List.mem_cons.mp hc with rfl | hc
        · exact absurd hct htruthy
        · rw [hstep]; exact ihurl c hc hct

theorem prepareColumns_apiPaths (cols : List RawColumn) (o : String)
    (rest : List String) :
    (prepareColumns ⟨some cols, some (o :: rest)⟩).map DisplayColumn.apiPath
      = cols.map (fun col => o ++ "." ++ col.fieldApiName) := by
  rw [prepareColumns_some, List.map_map]
  exact List.map_congr_left (fun col _ => by
    by_cases h : jsTruthyS col.lookupId <;> simp [h, jsIndex0])

theorem mem_prepareColumns_fieldApiName (cols : List RawColumn)
    (names : List String) :
    ∀ c ∈ prepareColumns ⟨some cols, some names⟩,
      ∃ rc ∈ cols, c.fieldApiName = rc.fieldApiName := by
  intro c hc
  rw [prepareColumns_some] at hc
  obtain ⟨rc, hrc, rfl⟩ := List.mem_map.mp hc
  refine ⟨rc, hrc, ?_⟩
  by_cases h : jsTruthyS rc.lookupId <;> simp [h]

theorem mem_rowKeySpec (cols : List DisplayColumn) (k : String) :
    k ∈ rowKeySpec cols →
      ∃ c ∈ cols, k = c.fieldApiName ∨ k = c.fieldApiName ++ "-resourceUrl" := by
  induction cols with
  | nil => intro h; simp [rowKeySpec] at h
  | cons f rest ih =>
    intro h
    rw [rowKeySpec] at h
    rcases List.mem_append.mp h with h | h
    · rw [colKeys] at h
      rcases List.mem_cons.mp h with rfl | h
      · exact ⟨f, List.mem_cons_self _ _, Or.inl rfl⟩
      · by_cases ht : jsTruthyS f.lookupId = true
        · rw [if_pos ht, List.mem_singleton] at h
          exact ⟨f, List.mem_cons_self _ _, Or.inr h⟩
        · rw [if_neg ht] at h
          simp at h
    · obtain ⟨c, hc, hcs⟩ := ih h
      exact ⟨c, List.mem_cons_of_mem _ hc, hcs⟩

/-- Every key of a projected row comes from the seed row or from the
column set (no hypotheses about collisions needed). -/
theorem projectFields_keys_subset (gfv gfdv : FieldReader) (svc : NavService)
    (recordData : JVal) :
    ∀ (cols : List DisplayColumn) (r : Row) (k : String),
      k ∈ rowKeys (projectFields gfv gfdv svc recordData cols r) →
      k ∈ rowKeys r ∨ k ∈ rowKeySpec cols := by
  intro cols
  induction cols with
  | nil => intro r k hk; exact Or.inl hk
  | cons f rest ih =>
    intro r k hk
    simp only [projectFields] at hk
    by_cases ht : jsTruthyS f.lookupId = true
    · rw [if_pos ht] at hk
      rcases ih _ k hk with h | h
      · rcases objSet_keys_subset _ _ _ k h with h2 | h2
        · rcases objSet_keys_subset _ _ _ k h2 with h3 | h3
          · exact Or.inl h3
          · right
            rw [rowKeySpec, colKeys]
            exact List.mem_append.mpr
              (Or.inl (by rw [h3]; exact List.mem_cons_self _ _))
        · right
          rw [rowKeySpec, colKeys, if_pos ht]
          exact List.mem_append.mpr (Or.inl (by
            rw [h2]
            exact List.mem_cons_of_mem _ (List.mem_cons_self _ _)))
      · right
        rw [rowKeySpec]
        exact List.mem_append.mpr (Or.inr h)
    · rw [if_neg ht] at hk
      rcases ih _ k hk with h | h
      · rcases objSet_keys_subset _ _ _ k h with h2 | h2
        · exact Or.inl h2
        · right
          rw [rowKeySpec, colKeys]
          exact List.mem_append.mpr
            (Or.inl (by rw [h2]; exact List.mem_cons_self _ _))
      · right
        rw [rowKeySpec]
        exact List.mem_append.mpr (Or.inr h)

theorem forall₂_mem_right {α β : Type} {R : α → β → Prop} :
    ∀ {l₁ : List α} {l₂ : List β}, List.Forall₂ R l₁ l₂ →
      ∀ b ∈ l₂, ∃ a ∈ l₁, R a b := by
  intro l₁ l₂ h
  induction h with
  | nil => intro b hb; simp at hb
  | @cons a b l₁ l₂ hR hF ih =>
    intro b' hb
    rcases List.mem_cons.mp hb with rfl | hb
    · exact ⟨a, List.mem_cons_self _ _, hR⟩
    · obtain ⟨a', ha, hr⟩ := ih b' hb
      exact ⟨a', List.mem_cons_of_mem _ ha, hr⟩

theorem extra_ne_resourceUrl (a x : String) :
    a ++ "." ++ "ExtraField__c" ≠ x ++ "-resourceUrl" := by
  intro heq
  have hc : (a ++ "." ++ "ExtraField__c").data.getLast? = some 'c' := by
    rw [String.data_append, List.getLast?_append]; rfl
  have hl : (x ++ "-resourceUrl").data.getLast? = some 'l' := by
    rw [String.data_append, List.getLast?_append]; rfl
  rw [heq, hl] at hc
  exact absurd hc (by decide)

theorem extra_ne_id (o : String) : o ++ "." ++ "ExtraField__c" ≠ "id" := by
  intro h
  have h0 := congrArg String.length h
  rw [String.length_append, String.length_append] at h0
  have h1 : ("." : String).length = 1 := rfl
  have h2 : ("ExtraField__c" : String).length = 13 := rfl
  have h3 : ("id" : String).length = 2 := rfl
  omega

theorem append_left_cancel_str {a b c : String} (h : a ++ b = a ++ c) :
    b = c := by
  have hd := congrArg String.data h
  rw [String.data_append, String.data_append] at hd
  exact string_eq_of_data_eq (List.append_cancel_left hd)

/-- C8: when the column set induces no key collisions, every projected
row has exactly the keys `id` plus, per column, the plain field name and
(for lookup columns) the `-resourceUrl`-suffixed key; the suffixed key
holds `undefined` when URL generation failed and the URL string
otherwise; the plain key holds the cell value the label/tooltip bind to;
and `prepareColumns` sets the lookup column's label and tooltip to the
plain `fieldApiName`. -/
theorem display_rows_complete (gfv gfdv : FieldReader) (svc : NavService)
    (rs : List JVal) (cols : List DisplayColumn) (rows : List Row)
    (hnd : ("id" :: rowKeySpec cols).Nodup)
    (h : prepareDisplayRecords gfv gfdv svc (some rs) (some cols) = .ok rows) :
    List.Forall₂ (fun recordData row =>
        rowKeys row = "id" :: rowKeySpec cols
      ∧ (∀ c ∈ cols, jsTruthyS c.lookupId = true →
          rowLookup row (c.fieldApiName ++ "-resourceUrl")
            = some ((generateRecordUrl svc recordData c).map JVal.str))
      ∧ (∀ c ∈ cols,
          rowLookup row c.fieldApiName
            = some (some (cellValue gfv gfdv recordData c)))) rs rows
  ∧ (∀ info : RelatedListInfo, ∀ c ∈ prepareColumns info,
      jsTruthyS c.lookupId = true →
      c.fieldName = c.fieldApiName ++ "-resourceUrl"
    ∧ c.typeAttributes = some { labelFieldName := c.fieldApiName
                                tooltipFieldName := c.fieldApiName }) := by
  constructor
  · have hf := projectRecords_ok_forall₂ gfv gfdv svc cols rs rows h
    refine hf.imp ?_
    intro recordData row hrow
    cases hid : getPropE recordData "id" with
    | error e => simp only [projectRecordE, hid] at hrow; simp at hrow
    | ok idv =>
      simp only [projectRecordE, hid, Except.ok.injEq] at hrow
      subst hrow
      have hnd' : (rowKeys [(("id" : String), idv)] ++ rowKeySpec cols).Nodup := by
        simpa [rowKeys] using hnd
      obtain ⟨hkeys, _, hcell, hurl⟩ :=
        projectFields_spec gfv gfdv svc recordData cols [("id", idv)] hnd'
      exact ⟨by simpa [rowKeys] using hkeys, hurl, hcell⟩
  · intro info c hc htruthy
    match info with
    | ⟨none, oan⟩ => cases oan <;> simp [prepareColumns] at hc
    | ⟨some dc, none⟩ => simp [prepareColumns] at hc
    | ⟨some dc, some names⟩ =>
      rw [prepareColumns_some] at hc
      obtain ⟨col, hcol, rfl⟩ := List.mem_map.mp hc
      by_cases hl : jsTruthyS col.lookupId = true
      · simp [hl]
      · rw [if_neg hl] at htruthy
        simp at htruthy
        exact absurd htruthy hl

/-- C8 witness: a lookup column and a text column over one concrete
record produce a single row with exactly the specified keys. -/
theorem display_rows_complete_witness :
    rowKeys [(("id" : String), some (JVal.str "rec1")),
             ("ContactId", some (JVal.str "")),
             ("ContactId-resourceUrl",
              some (JVal.str "/lightning/r/005x/view")),
             ("Name", some (JVal.str ""))]
      = "id" :: rowKeySpec [lookupColumn (some "A"), textColumn] :=
  (List.forall₂_cons.mp
    (display_rows_complete readerNone readerNone svcView [sampleFlatRecord]
      [lookupColumn (some "A"), textColumn]
      [[(("id" : String), some (JVal.str "rec1")),
        ("ContactId", some (JVal.str "")),
        ("ContactId-resourceUrl",
         some (JVal.str "/lightning/r/005x/view")),
        ("Name", some (JVal.str ""))]]
      (by decide) rfl).1).1.1

/-- C10: after a metadata refresh the fetch field-name list is the
descriptors' `apiPath`s plus exactly one extra entry
`objectApiNames[0] ++ ".ExtraField__c"` from the hard-coded
`EXTRA_FIELDS` constant; when no display column is named
`ExtraField__c`, the extra entry matches no descriptor's `apiPath`, and
when no display column is named after it, it is no key of any projected
row either. -/
theorem relatedListFieldNames_extra_field (cols : List RawColumn)
    (o : String) (rest : List String) :
    relatedListFieldNamesOf ⟨some cols, some (o :: rest)⟩
      = .ok ((prepareColumns ⟨some cols, some (o :: rest)⟩).map
               DisplayColumn.apiPath
             ++ [o ++ "." ++ "ExtraField__c"])
  ∧ ((∀ c ∈ cols, c.fieldApiName ≠ "ExtraField__c") →
      o ++ "." ++ "ExtraField__c"
        ∉ (prepareColumns ⟨some cols, some (o :: rest)⟩).map
            DisplayColumn.apiPath)
  ∧ (∀ gfv gfdv svc rs rows,
      prepareDisplayRecords gfv gfdv svc (some rs)
          (some (prepareColumns ⟨some cols, some (o :: rest)⟩)) = .ok rows →
      (∀ c ∈ cols, c.fieldApiName ≠ o ++ "." ++ "ExtraField__c") →
      ∀ row ∈ rows, o ++ "." ++ "ExtraField__c" ∉ rowKeys row) := by
  refine ⟨rfl, ?_, ?_⟩
  · intro hnone hmem
    rw [prepareColumns_apiPaths] at hmem
    obtain ⟨c, hc, hceq⟩ := List.mem_map.mp hmem
    exact hnone c hc (append_left_cancel_str hceq)
  · intro gfv gfdv svc rs rows hok hnames row hrow hkmem
    have hf := projectRecords_ok_forall₂ gfv gfdv svc _ rs rows hok
    obtain ⟨recordData, _, hrec⟩ := forall₂_mem_right hf row hrow
    cases hid : getPropE recordData "id" with
    | error e => simp only [projectRecordE, hid] at hrec; simp at hrec
    | ok idv =>
      simp only [projectRecordE, hid, Except.ok.injEq] at hrec
      subst hrec
      rcases projectFields_keys_subset gfv gfdv svc recordData _ _ _ hkmem
        with h | h
      · simp only [rowKeys, List.map_cons, List.map_nil,
          List.mem_singleton] at h
        exact extra_ne_id o h
      · obtain ⟨c, hc, hcase⟩ := mem_rowKeySpec _ _ h
        obtain ⟨rc, hrc, hfeq⟩ := mem_prepareColumns_fieldApiName _ _ c hc
        rcases hcase with hcase | hcase
        · exact hnames rc hrc (by rw [← hfeq]; exact hcase.symm)
        · exact extra_ne_resourceUrl o c.fieldApiName hcase

/-- C10 witness: with one `Name` column over `Case`, the fetch list is
the one `apiPath` plus `Case.ExtraField__c`, which is not an `apiPath`. -/
theorem relatedListFieldNames_extra_field_witness :
    ("Case" ++ "." ++ "ExtraField__c")
      ∉ (prepareColumns ⟨some [⟨"Name", "text", none⟩], some ["Case"]⟩).map
          DisplayColumn.apiPath :=
  (relatedListFieldNames_extra_field [⟨"Name", "text", none⟩] "Case" []).2.1
    (by decide)

end RelatedList
